import Mathlib

/-!
Verification of the flow reconciliation engine of src/controller/ofctrl.c
(an OVN hypervisor-local controller agent).

The C code is shallowly embedded: intrusive doubly-linked lists and raw
pointers become Lean lists and stable indices (a desired flow is identified
by its position in the desired table list, exactly as the design notes of
the specification suggest); the file-scope mutable globals of ofctrl.c
become fields of one explicit Engine structure threaded through every
operation.  Machine integers: table_id/priority/xid are Nat, nb_cfg/cur_cfg
(int64_t, only compared and copied, never subject to arithmetic overflow in
the modelled paths) are Int.  The opaque minimatch value is an abstract Nat
with decidable equality, matching its role in the source (equality and
hashing only; hashing is dropped since the Lean lists resolve lookups by
key equality directly, which is what the hash buckets resolve to).
-/

namespace Ofctrl

/-- Connection state machine states, from the STATES macro of ofctrl.c. -/
inductive OfState where
  | S_NEW
  | S_TLV_TABLE_REQUESTED
  | S_TLV_TABLE_MOD_SENT
  | S_CLEAR_FLOWS
  | S_UPDATE_FLOWS
deriving DecidableEq

/-- The OpenFlow message types that the modelled receive handlers
distinguish (enum ofptype is much larger; every other value behaves like
the catch-all constructor in the handlers of ofctrl.c). -/
inductive OfType where
  | BARRIER_REPLY
  | ERROR
  | ECHO_REQUEST
  | NXT_TLV_TABLE_REPLY
  | OTHER
deriving DecidableEq

/-- States of a pending conntrack-zone flush entry.  Modelled from the
spec: struct ct_zone_pending_entry lives in ovn-controller.h, which is not
part of this repository snapshot; ofctrl.c reads and writes exactly the
three states below (OF_QUEUED, OF_SENT, DB_QUEUED). -/
inductive CtState where
  | CT_ZONE_OF_QUEUED
  | CT_ZONE_OF_SENT
  | CT_ZONE_DB_QUEUED
deriving DecidableEq

/-- A pending conntrack-zone flush (struct ct_zone_pending_entry, the
fields ofctrl.c touches). -/
structure CtZoneEntry where
  zone : Nat
  ctstate : CtState
  of_xid : Nat
deriving DecidableEq

/-- An OpenFlow flow: key (table_id, priority, match) plus data
(actions, cookie) — struct ovn_flow of ofctrl.c, with the derived hash
field dropped (lookups below compare keys directly, which is what the
hash-bucket walk of the C code resolves to). -/
structure OvnFlow where
  table_id : Nat
  priority : Nat
  mtch : Nat
  ofpacts : List Nat
  cookie : Nat
deriving DecidableEq

/-- The flow key: two flows denote the same table slot iff their keys are
equal (cookie and actions are not part of the key). -/
def OvnFlow.key (f : OvnFlow) : Nat × Nat × Nat :=
  (f.table_id, f.priority, f.mtch)

/-- A desired flow (struct desired_flow): the flow value plus its list of
source references (the sb_uuid of each sb_flow_ref on the references list,
in list order, front first).  The weak pointer to the installed flow is
kept on the installed side only (see InstalledFlow.desired_refs). -/
structure DesiredFlow where
  flow : OvnFlow
  references : List Nat
deriving DecidableEq

/-- An installed flow (struct installed_flow): the flow value, the
desired_refs back-reference list (indices of desired flows in the desired
table, in list order, front first) and the designated primary desired flow
(the desired_flow pointer), if any. -/
structure InstalledFlow where
  flow : OvnFlow
  desired_refs : List Nat
  desired_flow : Option Nat
deriving DecidableEq

/-- link_installed_to_desired of ofctrl.c: no-op when d is already the
primary; when the desired_refs list is empty the newly linked flow becomes
the primary; the back-reference is appended at the tail of desired_refs
(ovs_list_insert on the list head is a push-back). -/
def link_installed_to_desired (i : InstalledFlow) (d : Nat) : InstalledFlow :=
  if i.desired_flow = some d then
    i
  else
    let i1 := if i.desired_refs = [] then { i with desired_flow := some d } else i
    { i1 with desired_refs := i1.desired_refs ++ [d] }

/-- unlink_installed_to_desired of ofctrl.c: remove the back-reference;
if the removed flow was the primary, the new primary is the head of the
remaining desired_refs, or none if the list became empty. -/
def unlink_installed_to_desired (i : InstalledFlow) (d : Nat) : InstalledFlow :=
  let refs := i.desired_refs.erase d
  { i with
    desired_refs := refs,
    desired_flow := if i.desired_flow = some d then refs.head? else i.desired_flow }

/-- unlink_all_refs_for_installed_flow of ofctrl.c: net effect on the
installed flow of unlinking every desired back-reference in turn. -/
def unlink_all_refs_for_installed_flow (i : InstalledFlow) : InstalledFlow :=
  { i with desired_refs := [], desired_flow := none }

/-- desired_flow_lookup of ofctrl.c: first flow in the match index with
the target key; when a source uuid is supplied the flow must moreover list
that uuid among its references (flows with the right key but without the
uuid are skipped and the walk continues). -/
def desired_flow_lookup (tbl : List DesiredFlow) (k : Nat × Nat × Nat)
    (sb_uuid : Option Nat) : Option DesiredFlow :=
  tbl.find? (fun d =>
    decide (d.flow.key = k) &&
      match sb_uuid with
      | none => true
      | some u => d.references.contains u)

/-- desired_flow_lookup together with the position of the result in the table: the list
index plays the role of the returned pointer.  Same walk as
desired_flow_lookup with a null uuid. -/
def desired_flow_lookup_idx : List DesiredFlow → Nat × Nat × Nat →
    Option (Nat × DesiredFlow)
  | [], _ => none
  | d :: rest, k =>
    if d.flow.key = k then
      some (0, d)
    else
      match desired_flow_lookup_idx rest k with
      | some (j, d') => some (j + 1, d')
      | none => none

/-- installed_flow_lookup of ofctrl.c, reduced to the existence test the
reconciler needs on the Lean side. -/
def installed_flow_lookup_found (inst : List InstalledFlow)
    (k : Nat × Nat × Nat) : Bool :=
  inst.any (fun i => decide (i.flow.key = k))

/-- ofctrl_check_and_add_flow of ofctrl.c: allocate a candidate; if some
desired flow with the same key already references sb_uuid, discard the
candidate and leave the table unchanged; otherwise insert the candidate
into the match index (hmap_insert prepends inside the bucket) and link it
to sb_uuid (link_flow_to_sb appends the reference). -/
def ofctrl_check_and_add_flow (tbl : List DesiredFlow)
    (table_id priority cookie : Nat) (mtch : Nat) (actions : List Nat)
    (sb_uuid : Nat) : List DesiredFlow :=
  let f : OvnFlow :=
    { table_id := table_id, priority := priority, mtch := mtch,
      ofpacts := actions, cookie := cookie }
  match desired_flow_lookup tbl f.key (some sb_uuid) with
  | some _ => tbl
  | none => { flow := f, references := [sb_uuid] } :: tbl

/-- ofctrl_add_flow of ofctrl.c (check_and_add with duplicate logging). -/
def ofctrl_add_flow (tbl : List DesiredFlow) (table_id priority cookie : Nat)
    (mtch : Nat) (actions : List Nat) (sb_uuid : Nat) : List DesiredFlow :=
  ofctrl_check_and_add_flow tbl table_id priority cookie mtch actions sb_uuid

/-- The in-place update of ofctrl_add_or_append_flow when a flow with the
key of the candidate already exists: walk to the first key-matching flow
(the one desired_flow_lookup returns), concatenate the candidate actions onto
its actions, and append a source link (link_flow_to_sb is called
unconditionally in the source). -/
def append_to_existing_flow : List DesiredFlow → Nat × Nat × Nat →
    List Nat → Nat → List DesiredFlow
  | [], _, _, _ => []
  | d :: rest, k, actions, sb_uuid =>
    if d.flow.key = k then
      { d with
        flow := { d.flow with ofpacts := d.flow.ofpacts ++ actions },
        references := d.references ++ [sb_uuid] } :: rest
    else
      d :: append_to_existing_flow rest k actions sb_uuid

/-- ofctrl_add_or_append_flow of ofctrl.c: if a desired flow with the same
key exists (regardless of source), append the candidate actions onto it
and link sb_uuid to it; otherwise insert the candidate as a new flow. -/
def ofctrl_add_or_append_flow (tbl : List DesiredFlow)
    (table_id priority cookie : Nat) (mtch : Nat) (actions : List Nat)
    (sb_uuid : Nat) : List DesiredFlow :=
  let f : OvnFlow :=
    { table_id := table_id, priority := priority, mtch := mtch,
      ofpacts := actions, cookie := cookie }
  match desired_flow_lookup tbl f.key none with
  | some _ => append_to_existing_flow tbl f.key actions sb_uuid
  | none => { flow := f, references := [sb_uuid] } :: tbl

/-! ## TLV (tunnel metadata option) negotiation -/

/-- OVN_GENEVE_CLASS: the vendor class of the tunnel-metadata option. -/
def OVN_GENEVE_CLASS : Nat := 0x0102

/-- OVN_GENEVE_TYPE: the option type of the tunnel-metadata option. -/
def OVN_GENEVE_TYPE : Nat := 0x80

/-- OVN_GENEVE_LEN: the option length of the tunnel-metadata option. -/
def OVN_GENEVE_LEN : Nat := 4

/-- TUN_METADATA_NUM_OPTS: number of tunnel-metadata slots (the BUILD_ASSERT
in process_tlv_table_reply pins it to 64). -/
def TUN_METADATA_NUM_OPTS : Nat := 64

/-- MFF_TUN_METADATA0: the field id of tunnel-metadata slot 0.  The exact
numeric value of this enum constant is immaterial to every claim; it only
matters that slot idx maps to MFF_TUN_METADATA0 + idx and that the value 0
is reserved for "tunnel metadata disabled". -/
def MFF_TUN_METADATA0 : Nat := 41

/-- One mapping of an NXT_TLV_TABLE_REPLY (struct ofputil_tlv_map). -/
structure TlvMap where
  option_class : Nat
  option_type : Nat
  option_len : Nat
  index : Nat
deriving DecidableEq

/-- Whether a mapping carries the expected OVN Geneve class/type/length. -/
def tlv_map_matches (m : TlvMap) : Bool :=
  m.option_class == OVN_GENEVE_CLASS && m.option_type == OVN_GENEVE_TYPE &&
    m.option_len == OVN_GENEVE_LEN

/-- Outcome of process_tlv_table_reply: either the OVN option was found at
a usable index (record it, go to S_CLEAR_FLOWS), or a TLV-table-mod plus
barrier were emitted for a chosen free slot (go to S_TLV_TABLE_MOD_SENT),
or the function returned false (error path of the caller). -/
inductive TlvOutcome where
  | found (idx : Nat)
  | modSent (idx : Nat)
  | failed
deriving DecidableEq

/-- The mapping walk of process_tlv_table_reply.  The used accumulator
collects the indices (below 64) of the mappings already walked past: it is
the complement of the md_free bitmask of the source.  On reaching the end
of the list, rightmost_1bit_idx of md_free is the least index of the range
0..63 that no walked mapping occupied. -/
def process_tlv_table_reply_go : List TlvMap → List Nat → TlvOutcome
  | [], used =>
    match (List.range TUN_METADATA_NUM_OPTS).find? (fun n => !(used.contains n)) with
    | none => .failed
    | some idx => .modSent idx
  | m :: rest, used =>
    if tlv_map_matches m then
      if TUN_METADATA_NUM_OPTS ≤ m.index then .failed else .found m.index
    else
      process_tlv_table_reply_go rest
        (if m.index < TUN_METADATA_NUM_OPTS then m.index :: used else used)

/-- process_tlv_table_reply of ofctrl.c. -/
def process_tlv_table_reply (mappings : List TlvMap) : TlvOutcome :=
  process_tlv_table_reply_go mappings []

/-- The globals of ofctrl.c that the TLV negotiation handler touches:
the negotiated field id, the state, and the two recorded xids. -/
structure TlvNegotiation where
  mff_ovn_geneve : Nat
  tlv_state : OfState
  xid : Nat
  xid2 : Nat
deriving DecidableEq

/-- recv_S_TLV_TABLE_REQUESTED of ofctrl.c.  xid_matches tells whether the
incoming header carries the xid of the outstanding request (messages with
another xid go to the generic handler, which leaves these globals alone);
decode_ok tells whether ofputil_decode_tlv_table_reply succeeded; new_xid
and new_xid2 are the transaction ids the connection layer assigns to the
TLV-table-mod and the barrier if they get emitted. -/
def recv_S_TLV_TABLE_REQUESTED (s : TlvNegotiation) (xid_matches : Bool)
    (t : OfType) (decode_ok : Bool) (mappings : List TlvMap)
    (new_xid new_xid2 : Nat) : TlvNegotiation :=
  if !xid_matches then
    s
  else if t == OfType.NXT_TLV_TABLE_REPLY && decode_ok then
    match process_tlv_table_reply mappings with
    | .found idx =>
      { s with mff_ovn_geneve := MFF_TUN_METADATA0 + idx,
               tlv_state := OfState.S_CLEAR_FLOWS }
    | .modSent idx =>
      { s with mff_ovn_geneve := MFF_TUN_METADATA0 + idx,
               xid := new_xid, xid2 := new_xid2,
               tlv_state := OfState.S_TLV_TABLE_MOD_SENT }
    | .failed =>
      { s with mff_ovn_geneve := 0, tlv_state := OfState.S_CLEAR_FLOWS }
  else
    { s with mff_ovn_geneve := 0, tlv_state := OfState.S_CLEAR_FLOWS }

/-! ## The engine state and the reconciler -/

/-- An in-flight flow update (struct ofctrl_flow_update): a barrier
transaction id paired with the configuration revision that the matching
barrier reply certifies. -/
structure FlowUpdate where
  xid : Nat
  nb_cfg : Int
deriving DecidableEq

/-- Modelled from the spec: struct ovn_extend_table (lib/extend-table) is
not part of this repository snapshot.  Per the collaborator contract of
the spec, it exposes the desired set, the existing (installed) set,
iteration over uninstalled entries (desired but not existing), iteration
over existing entries no longer desired, clearing the existing set, and
sync (existing becomes desired).  Entries are reduced to their numeric
table ids. -/
structure ExtendTable where
  desired : List Nat
  existing : List Nat
deriving DecidableEq

/-- Uninstalled entries: desired but not yet on the switch. -/
def ExtendTable.uninstalled (t : ExtendTable) : List Nat :=
  t.desired.filter (fun g => !(t.existing.contains g))

/-- Existing entries that are no longer desired. -/
def ExtendTable.stale (t : ExtendTable) : List Nat :=
  t.existing.filter (fun g => !(t.desired.contains g))

/-- ovn_extend_table_sync, modelled from the spec: promote the desired set
to the existing set. -/
def ExtendTable.sync (t : ExtendTable) : ExtendTable :=
  { t with existing := t.desired }

/-- The file-scope mutable state of ofctrl.c gathered into one record, plus
the caller-owned pending_ct_zones table that ofctrl_put and the receive
handlers mutate through the pointer they are given.  tx_packets is the
reading of rconn_packet_counter_n_packets(tx_counter); version is the
negotiated OpenFlow version (negative while unavailable); the counter and
version are maintained by the connection layer and are treated as inputs
here.  old_nb_cfg and skipped_last_time are the static locals of
ofctrl_put. -/
structure Engine where
  ofstate : OfState
  tx_packets : Nat
  version : Int
  cur_cfg : Int
  old_nb_cfg : Int
  skipped_last_time : Bool
  need_reinstall_flows : Bool
  flow_updates : List FlowUpdate
  installed_flows : List InstalledFlow
  ct_zones : List CtZoneEntry
  groups : ExtendTable
  meters : ExtendTable
deriving DecidableEq

/-- ofctrl_get_cur_cfg of ofctrl.c. -/
def ofctrl_get_cur_cfg (e : Engine) : Int :=
  e.cur_cfg

/-- ofctrl_can_put of ofctrl.c: false when the state machine is not in
S_UPDATE_FLOWS, or in-flight packets remain on tx_counter, or the
negotiated version is negative; true otherwise. -/
def ofctrl_can_put (e : Engine) : Bool :=
  if e.ofstate ≠ OfState.S_UPDATE_FLOWS ∨ e.tx_packets ≠ 0 ∨ e.version < 0 then
    false
  else
    true

/-- recv_S_UPDATE_FLOWS of ofctrl.c.  On a barrier reply while the
flow-update queue is non-empty: if the xid of the head matches, raise
cur_cfg to the nb_cfg of the head (never lowering it) and drop the head;
in the same
branch, move every pending conntrack flush in CT_ZONE_OF_SENT whose of_xid
matches to CT_ZONE_DB_QUEUED.  Every other message goes to the generic
handler, which does not touch this state. -/
def recv_S_UPDATE_FLOWS (e : Engine) (t : OfType) (oh_xid : Nat) : Engine :=
  match t, e.flow_updates with
  | OfType.BARRIER_REPLY, fup :: rest =>
    let e1 :=
      if fup.xid = oh_xid then
        { e with
          cur_cfg := if e.cur_cfg ≤ fup.nb_cfg then fup.nb_cfg else e.cur_cfg,
          flow_updates := rest }
      else
        e
    { e1 with
      ct_zones := e1.ct_zones.map (fun z =>
        if z.ctstate = CtState.CT_ZONE_OF_SENT ∧ z.of_xid = oh_xid then
          { z with ctstate := CtState.CT_ZONE_DB_QUEUED }
        else
          z) }
  | _, _ => e

/-- The messages run_S_CLEAR_FLOWS queues (their payloads are fixed
delete-everything mods). -/
inductive ClearMsg where
  | flowDeleteAll
  | groupDeleteAll
  | meterDeleteAll
deriving DecidableEq

/-- run_S_CLEAR_FLOWS of ofctrl.c: queue a delete-all flow mod, a
delete-all group mod and a delete-all meter mod (in that order); clear the
installed flow table, the existing groups and meters, and every in-flight
flow update; set need_reinstall_flows; transition to S_UPDATE_FLOWS. -/
def run_S_CLEAR_FLOWS (e : Engine) : Engine × List ClearMsg :=
  ({ e with
     need_reinstall_flows := true,
     installed_flows := [],
     groups := { e.groups with existing := [] },
     meters := { e.meters with existing := [] },
     flow_updates := [],
     ofstate := OfState.S_UPDATE_FLOWS },
   [ClearMsg.flowDeleteAll, ClearMsg.groupDeleteAll, ClearMsg.meterDeleteAll])

/-! ### The flow walks of ofctrl_put -/

/-- installed_flow_mod of ofctrl.c, restricted to its effect on the local
installed flow: replace its actions and cookie by the desired ones. -/
def installed_flow_mod_local (i d : OvnFlow) : OvnFlow :=
  { i with ofpacts := d.ofpacts, cookie := d.cookie }

/-- installed_flow_dup of ofctrl.c: clone a desired flow into a fresh
installed flow with no back-references and no primary. -/
def installed_flow_dup (d : DesiredFlow) : InstalledFlow :=
  { flow := d.flow, desired_refs := [], desired_flow := none }

/-- The walk of ofctrl_put over installed_flows: unlink all desired
back-references; if no desired flow has the key of the installed flow, emit a
strict delete and drop it; otherwise, when actions or cookie differ, emit
a modify and copy them over; finally relink the installed flow to its
desired peer.  Returns the surviving flows and the number of flow mods
emitted. -/
def put_update_installed (tbl : List DesiredFlow) :
    List InstalledFlow → List InstalledFlow × Nat
  | [] => ([], 0)
  | i :: rest =>
    let r := put_update_installed tbl rest
    let i0 := unlink_all_refs_for_installed_flow i
    match desired_flow_lookup_idx tbl i.flow.key with
    | none => (r.1, r.2 + 1)
    | some (j, d) =>
      if i.flow.ofpacts ≠ d.flow.ofpacts ∨ i.flow.cookie ≠ d.flow.cookie then
        (link_installed_to_desired
           { i0 with flow := installed_flow_mod_local i0.flow d.flow } j :: r.1,
         r.2 + 1)
      else
        (link_installed_to_desired i0 j :: r.1, r.2)

/-- Relink the first installed flow carrying the given key (the one
installed_flow_lookup returns) to desired flow j. -/
def link_first_installed : List InstalledFlow → Nat × Nat × Nat → Nat →
    List InstalledFlow
  | [], _, _ => []
  | i :: rest, k, j =>
    if i.flow.key = k then
      link_installed_to_desired i j :: rest
    else
      i :: link_first_installed rest k j

/-- The walk of ofctrl_put over the desired table (j is the index of the
first remaining desired flow): every desired flow without an installed
peer is emitted as an add and cloned into installed_flows; every desired
flow is then linked to its installed peer.  Returns the updated installed
table and the number of flow adds emitted. -/
def put_add_desired : Nat → List DesiredFlow → List InstalledFlow →
    List InstalledFlow × Nat
  | _, [], inst => (inst, 0)
  | j, d :: rest, inst =>
    let step :=
      if installed_flow_lookup_found inst d.flow.key then
        (link_first_installed inst d.flow.key j, 0)
      else
        (inst ++ [link_installed_to_desired (installed_flow_dup d) j], 1)
    let r := put_add_desired (j + 1) rest step.1
    (r.1, step.2 + r.2)

/-- Both flow walks of ofctrl_put in source order, with the total number
of flow mods emitted. -/
def ofctrl_put_flows (tbl : List DesiredFlow) (inst : List InstalledFlow) :
    List InstalledFlow × Nat :=
  let r1 := put_update_installed tbl inst
  let r2 := put_add_desired 0 tbl r1.1
  (r2.1, r1.2 + r2.2)

/-! ### Flow-update tracking of ofctrl_put -/

/-- The backward scan of the flow-update queue in ofctrl_put, operating on
the reversed queue (head of the argument is the most recent record):
records with nb_cfg greater than the new one are dropped with a warning;
a record with equal nb_cfg has its xid overwritten and the scan stops
without appending; otherwise the scan stops and a fresh record is appended
at the tail (the head of the reversed queue). -/
def ofctrl_put_track_rev : List FlowUpdate → Int → Nat → List FlowUpdate
  | [], nb_cfg, xid_ => [{ xid := xid_, nb_cfg := nb_cfg }]
  | f :: rest, nb_cfg, xid_ =>
    if nb_cfg < f.nb_cfg then
      ofctrl_put_track_rev rest nb_cfg xid_
    else if nb_cfg = f.nb_cfg then
      { xid := xid_, nb_cfg := nb_cfg } :: rest
    else
      { xid := xid_, nb_cfg := nb_cfg } :: f :: rest

/-- Flow-update tracking after a barrier was emitted: the backward scan
plus append, on the queue in its natural order (head oldest). -/
def ofctrl_put_track (q : List FlowUpdate) (nb_cfg : Int) (xid_ : Nat) :
    List FlowUpdate :=
  (ofctrl_put_track_rev q.reverse nb_cfg xid_).reverse

/-- The no-message branch of ofctrl_put when the queue is non-empty:
overwrite the nb_cfg of the most recent record. -/
def set_last_nb_cfg : List FlowUpdate → Int → List FlowUpdate
  | [], _ => []
  | [f], nb_cfg => [{ f with nb_cfg := nb_cfg }]
  | f :: g :: rest, nb_cfg => f :: set_last_nb_cfg (g :: rest) nb_cfg

/-- The number of messages ofctrl_put queues before the barrier decision:
one conntrack zone flush per CT_ZONE_OF_QUEUED entry, one add per
uninstalled group and meter, the flow deletes/modifies/adds of the two
flow walks, and one delete per stale group and meter.  (Group and meter
mods whose textual definitions fail to parse are logged and skipped in the
source; entries are modelled as well-formed.) -/
def ofctrl_put_msg_count (e : Engine) (tbl : List DesiredFlow) : Nat :=
  (e.ct_zones.filter (fun z => z.ctstate == CtState.CT_ZONE_OF_QUEUED)).length +
    e.groups.uninstalled.length + e.meters.uninstalled.length +
    (ofctrl_put_flows tbl e.installed_flows).2 +
    e.groups.stale.length + e.meters.stale.length

/-- ofctrl_put of ofctrl.c.  tbl is the desired flow table of the caller,
nb_cfg the configuration revision, flow_changed the report of the caller that
the desired table changed since the last call; barrier_xid is the
transaction id the connection layer assigns to the barrier if one is
emitted. -/
def ofctrl_put (e : Engine) (tbl : List DesiredFlow) (nb_cfg : Int)
    (flow_changed : Bool) (barrier_xid : Nat) : Engine :=
  let need_put :=
    flow_changed || e.skipped_last_time || e.need_reinstall_flows ||
      (nb_cfg != e.old_nb_cfg && e.cur_cfg != e.old_nb_cfg)
  let cur1 :=
    if flow_changed || e.skipped_last_time || e.need_reinstall_flows then
      e.cur_cfg
    else if nb_cfg ≠ e.old_nb_cfg ∧ e.cur_cfg = e.old_nb_cfg then
      nb_cfg
    else
      e.cur_cfg
  let e := { e with cur_cfg := cur1, old_nb_cfg := nb_cfg }
  if !need_put then
    e
  else if !(ofctrl_can_put e) then
    { e with skipped_last_time := true }
  else
    let e := { e with skipped_last_time := false, need_reinstall_flows := false }
    let ct1 := e.ct_zones.map (fun z =>
      if z.ctstate = CtState.CT_ZONE_OF_QUEUED then
        { z with ctstate := CtState.CT_ZONE_OF_SENT, of_xid := 0 }
      else
        z)
    let inst2 := (ofctrl_put_flows tbl e.installed_flows).1
    let msg_count := ofctrl_put_msg_count e tbl
    let e := { e with
               installed_flows := inst2,
               groups := e.groups.sync,
               meters := e.meters.sync }
    if msg_count ≠ 0 then
      { e with
        ct_zones := ct1.map (fun z =>
          if z.ctstate = CtState.CT_ZONE_OF_SENT ∧ z.of_xid = 0 then
            { z with of_xid := barrier_xid }
          else
            z),
        flow_updates := ofctrl_put_track e.flow_updates nb_cfg barrier_xid }
    else if e.flow_updates ≠ [] then
      { e with ct_zones := ct1,
               flow_updates := set_last_nb_cfg e.flow_updates nb_cfg }
    else
      { e with ct_zones := ct1, cur_cfg := nb_cfg }

/-! ### Event steps -/

/-- The externally driven events the temporal claims range over: a call to
ofctrl_put, the dispatch of a received message while in S_UPDATE_FLOWS,
and the on-entry work of S_CLEAR_FLOWS. -/
inductive OfEvent where
  | put (tbl : List DesiredFlow) (nb_cfg : Int) (flow_changed : Bool)
      (barrier_xid : Nat)
  | recvUpdateFlows (t : OfType) (oh_xid : Nat)
  | clearFlows
deriving DecidableEq

/-- One event step.  The receive dispatch reaches recv_S_UPDATE_FLOWS only
in state S_UPDATE_FLOWS, and run_S_CLEAR_FLOWS only runs in state
S_CLEAR_FLOWS (the drive loop of ofctrl_run dispatches on the current
state); in any other state these events leave the modelled fields
unchanged (the handlers of the other states touch only the TLV globals). -/
def ofctrl_step (e : Engine) : OfEvent → Engine
  | OfEvent.put tbl nb_cfg flow_changed barrier_xid =>
    ofctrl_put e tbl nb_cfg flow_changed barrier_xid
  | OfEvent.recvUpdateFlows t oh_xid =>
    if e.ofstate = OfState.S_UPDATE_FLOWS then recv_S_UPDATE_FLOWS e t oh_xid else e
  | OfEvent.clearFlows =>
    if e.ofstate = OfState.S_CLEAR_FLOWS then (run_S_CLEAR_FLOWS e).1 else e

/-- Run a sequence of events. -/
def ofctrl_run_events (e : Engine) : List OfEvent → Engine
  | [] => e
  | ev :: rest => ofctrl_run_events (ofctrl_step e ev) rest

/-! ## Specification-side helper predicates -/

/-- Ordering of flow-update records by configuration revision. -/
def FupLe (a b : FlowUpdate) : Prop :=
  a.nb_cfg ≤ b.nb_cfg

instance : DecidableRel FupLe :=
  fun a b => inferInstanceAs (Decidable (a.nb_cfg ≤ b.nb_cfg))

/-- Invariant I5 on one installed flow, plus the convention that a flow
without a primary has no back-references: when desired_flow is none the
desired_refs list is empty, and when it designates a primary that primary
appears among desired_refs. -/
def installed_flow_wf (i : InstalledFlow) : Bool :=
  match i.desired_flow with
  | none => i.desired_refs.isEmpty
  | some j => i.desired_refs.contains j

/-- The shape of every installed flow after the flow walks of ofctrl_put:
it is linked (as primary, with a non-empty back-reference list) to a
desired flow of the table that carries its key, and its actions and cookie
equal those of that desired flow. -/
def put_flow_good (tbl : List DesiredFlow) (i : InstalledFlow) : Prop :=
  ∃ j d, tbl[j]? = some d ∧ i.desired_flow = some j ∧ i.desired_refs ≠ [] ∧
    i.flow.key = d.flow.key ∧ i.flow.ofpacts = d.flow.ofpacts ∧
    i.flow.cookie = d.flow.cookie

/-- Specification-side reading of the free-slot choice: the least index of
the 64 tunnel-metadata slots not occupied by any mapping of the reply.
The claim theorem relates process_tlv_table_reply to this definition. -/
def tlv_lowest_free (mappings : List TlvMap) : Option Nat :=
  (List.range TUN_METADATA_NUM_OPTS).find?
    (fun n => mappings.all (fun m => m.index != n))

/-- The side condition of the amended claim C2 along an event sequence:
every ofctrl_put call receives an nb_cfg at least as large as the cur_cfg
at the moment of the call. -/
def events_cfg_ok : Engine → List OfEvent → Bool
  | _, [] => true
  | e, ev :: rest =>
    (match ev with
     | OfEvent.put _ nb_cfg _ _ => decide (e.cur_cfg ≤ nb_cfg)
     | _ => true) &&
      events_cfg_ok (ofctrl_step e ev) rest

/-- The side condition of the amended claim C10 along an event sequence:
every ofctrl_put call that emits no messages receives an nb_cfg at least
as large as the nb_cfg of every queued flow-update record. -/
def events_queue_ok : Engine → List OfEvent → Bool
  | _, [] => true
  | e, ev :: rest =>
    (match ev with
     | OfEvent.put tbl nb_cfg _ _ =>
       ofctrl_put_msg_count e tbl != 0 ||
         e.flow_updates.all (fun f => decide (f.nb_cfg ≤ nb_cfg))
     | _ => true) &&
      events_queue_ok (ofctrl_step e ev) rest

/-! ## Concrete instances used by witnesses and counterexamples -/

/-- A ready engine: steady state, idle connection, empty tables, with
cur_cfg and old_nb_cfg caught up at revision 5. -/
def engineReady : Engine :=
  { ofstate := OfState.S_UPDATE_FLOWS, tx_packets := 0, version := 4,
    cur_cfg := 5, old_nb_cfg := 5, skipped_last_time := false,
    need_reinstall_flows := false, flow_updates := [], installed_flows := [],
    ct_zones := [], groups := { desired := [], existing := [] },
    meters := { desired := [], existing := [] } }

/-- A desired flow used by concrete checks: table 0, priority 100,
match 5, one action byte, cookie 7, produced by source 10. -/
def dfSample : DesiredFlow :=
  { flow := { table_id := 0, priority := 100, mtch := 5, ofpacts := [1],
              cookie := 7 },
    references := [10] }

/-- A second desired flow with a different key. -/
def dfSample2 : DesiredFlow :=
  { flow := { table_id := 0, priority := 200, mtch := 6, ofpacts := [2],
              cookie := 8 },
    references := [11] }

/-- An installed flow whose back-reference list holds a non-primary
desired flow (index 1): reachable by linking desired flows 0 and then 1
into a fresh installed flow. -/
def ifTwoRefs : InstalledFlow :=
  { flow := { table_id := 0, priority := 100, mtch := 5, ofpacts := [1],
              cookie := 7 },
    desired_refs := [0, 1], desired_flow := some 0 }

/-- The TLV negotiation globals while a table request is outstanding. -/
def tlvRequested : TlvNegotiation :=
  { mff_ovn_geneve := 5, tlv_state := OfState.S_TLV_TABLE_REQUESTED,
    xid := 1, xid2 := 2 }

/-! ## Claim C6 -/

/-- Claim C6: ofctrl_can_put returns true if and only if the state machine
is in S_UPDATE_FLOWS, the in-flight packet counter on the connection is
zero, and the negotiated OpenFlow version is valid (non-negative). -/
theorem c6_can_put_iff (e : Engine) :
    ofctrl_can_put e = true ↔
      (e.ofstate = OfState.S_UPDATE_FLOWS ∧ e.tx_packets = 0 ∧ 0 ≤ e.version) := by
  unfold ofctrl_can_put
  split
  · rename_i h
    simp only [Bool.false_eq_true, false_iff, not_and]
    intro h1 h2
    rcases h with h | h | h
    · exact absurd h1 h
    · exact absurd h2 h
    · omega
  · rename_i h
    push_neg at h
    simp only [true_iff]
    exact ⟨h.1, h.2.1, by omega⟩

/-! ## Claim C8 -/

/-- Claim C8: on entering S_CLEAR_FLOWS the engine queues a delete-all
flow mod, a delete-all group mod and a delete-all meter mod; locally
clears the installed flow table, the installed groups, the installed
meters and every in-flight flow-update record; sets need_reinstall_flows;
and transitions to S_UPDATE_FLOWS. -/
theorem c8_clear_flows (e : Engine) :
    (run_S_CLEAR_FLOWS e).2 =
      [ClearMsg.flowDeleteAll, ClearMsg.groupDeleteAll, ClearMsg.meterDeleteAll] ∧
    (run_S_CLEAR_FLOWS e).1.installed_flows = [] ∧
    (run_S_CLEAR_FLOWS e).1.groups.existing = [] ∧
    (run_S_CLEAR_FLOWS e).1.meters.existing = [] ∧
    (run_S_CLEAR_FLOWS e).1.flow_updates = [] ∧
    (run_S_CLEAR_FLOWS e).1.need_reinstall_flows = true ∧
    (run_S_CLEAR_FLOWS e).1.ofstate = OfState.S_UPDATE_FLOWS :=
  ⟨rfl, rfl, rfl, rfl, rfl, rfl, rfl⟩

/-! ## Claim C9 -/

/-- Claim C9 (amended): relinking the current primary changes nothing (the
idempotence check of the source compares only the primary, so relinking a
non-primary already-linked desired flow appends a duplicate
back-reference — see the counterexample); when the installed flow has no
primary the newly linked desired flow becomes the primary; otherwise the
primary is unchanged and the desired flow is appended to desired_refs;
unlinking removes the back-reference and, if the removed flow was the
primary, promotes the head of the remaining desired_refs (or none); after
every link and unlink a well-formed installed flow with a non-empty
desired_refs list has its primary among those desired flows. -/
theorem c9_link_unlink (i : InstalledFlow) (j : Nat) :
    (i.desired_flow = some j → link_installed_to_desired i j = i) ∧
    (installed_flow_wf i = true → i.desired_flow = none →
      (link_installed_to_desired i j).desired_flow = some j ∧
      (link_installed_to_desired i j).desired_refs = [j]) ∧
    (installed_flow_wf i = true → ∀ p, i.desired_flow = some p → p ≠ j →
      (link_installed_to_desired i j).desired_flow = some p ∧
      (link_installed_to_desired i j).desired_refs = i.desired_refs ++ [j]) ∧
    ((unlink_installed_to_desired i j).desired_refs = i.desired_refs.erase j ∧
      (unlink_installed_to_desired i j).desired_flow =
        (if i.desired_flow = some j then (i.desired_refs.erase j).head?
         else i.desired_flow)) ∧
    (installed_flow_wf i = true →
      installed_flow_wf (link_installed_to_desired i j) = true) ∧
    (installed_flow_wf i = true →
      installed_flow_wf (unlink_installed_to_desired i j) = true) := by
  refine ⟨?_, ?_, ?_, ⟨rfl, rfl⟩, ?_, ?_⟩
  · intro h
    simp [link_installed_to_desired, h]
  · intro hwf hn
    have hrefs : i.desired_refs = [] := by
      simpa [installed_flow_wf, hn, List.isEmpty_iff] using hwf
    simp [link_installed_to_desired, hn, hrefs]
  · intro hwf p hp hne
    have hmem : p ∈ i.desired_refs := by
      simpa [installed_flow_wf, hp] using hwf
    have hrefs : i.desired_refs ≠ [] := by
      intro h
      rw [h] at hmem
      exact absurd hmem (List.not_mem_nil p)
    have hcond : ¬ i.desired_flow = some j := by
      rw [hp]
      simpa using fun h => hne h
    simp [link_installed_to_desired, hcond, hrefs, hp, hne]
  · intro hwf
    rcases hd : i.desired_flow with _ | p
    · have hrefs : i.desired_refs = [] := by
        simpa [installed_flow_wf, hd, List.isEmpty_iff] using hwf
      simp [link_installed_to_desired, hd, hrefs, installed_flow_wf]
    · have hmem : p ∈ i.desired_refs := by
        simpa [installed_flow_wf, hd] using hwf
      by_cases hpj : p = j
      · subst hpj
        simp [link_installed_to_desired, hd, installed_flow_wf, hmem]
      · have hrefs : i.desired_refs ≠ [] := by
          intro h
          rw [h] at hmem
          exact absurd hmem (List.not_mem_nil p)
        have hcond : ¬ i.desired_flow = some j := by
          rw [hd]
          simpa using fun h => hpj h
        simp [link_installed_to_desired, hcond, hrefs, hd, installed_flow_wf,
          List.mem_append, hmem, hpj]
  · intro hwf
    rcases hd : i.desired_flow with _ | p
    · have hrefs : i.desired_refs = [] := by
        simpa [installed_flow_wf, hd, List.isEmpty_iff] using hwf
      simp [unlink_installed_to_desired, hd, hrefs, installed_flow_wf]
    · have hmem : p ∈ i.desired_refs := by
        simpa [installed_flow_wf, hd] using hwf
      by_cases hpj : p = j
      · subst hpj
        rcases herase : i.desired_refs.erase p with _ | ⟨q, t⟩
        · simp [unlink_installed_to_desired, hd, herase, installed_flow_wf]
        · simp [unlink_installed_to_desired, hd, herase, installed_flow_wf]
      · have hmem' : p ∈ i.desired_refs.erase j :=
          (List.mem_erase_of_ne hpj).mpr hmem
        have hcond : ¬ i.desired_flow = some j := by
          rw [hd]
          simpa using fun h => hpj h
        simp [unlink_installed_to_desired, hd, hcond, installed_flow_wf, hmem',
          hpj]

/-- Claim C9 counterexample: the flow ifTwoRefs already lists desired flow
1 among its back-references (it arises by linking desired flows 0 and 1
into a fresh installed flow), yet relinking 1 is not a no-op: a duplicate
back-reference is appended, so the link operation is not idempotent for
already-linked non-primary flows. -/
theorem c9_idempotence_cx :
    ifTwoRefs.desired_refs.contains 1 = true ∧
    link_installed_to_desired
        (link_installed_to_desired
          { flow := ifTwoRefs.flow, desired_refs := [], desired_flow := none } 0)
        1 = ifTwoRefs ∧
    link_installed_to_desired ifTwoRefs 1 ≠ ifTwoRefs := by
  refine ⟨rfl, by decide, by decide⟩

/-- Witness for claim C9 at a concrete input: ifTwoRefs has primary 0 and
relinking 0 changes nothing; ifTwoRefs is well formed and stays well
formed across an unlink. -/
theorem c9_link_unlink_witness :
    (ifTwoRefs.desired_flow = some 0 ∧
      link_installed_to_desired ifTwoRefs 0 = ifTwoRefs) ∧
    (installed_flow_wf ifTwoRefs = true ∧
      installed_flow_wf (unlink_installed_to_desired ifTwoRefs 0) = true) :=
  ⟨⟨rfl, (c9_link_unlink ifTwoRefs 0).1 rfl⟩,
   ⟨by decide, (c9_link_unlink ifTwoRefs 0).2.2.2.2.2 (by decide)⟩⟩

/-! ## Claims C3 and C4 -/

/-- The uuid-less lookup finds the first key-matching flow. -/
theorem desired_flow_lookup_append_cons (pre post : List DesiredFlow)
    (d : DesiredFlow) (k : Nat × Nat × Nat)
    (hpre : ∀ g ∈ pre, g.flow.key ≠ k) (hd : d.flow.key = k) :
    desired_flow_lookup (pre ++ d :: post) k none = some d := by
  induction pre with
  | nil => simp [desired_flow_lookup, hd]
  | cons g rest ih =>
    have hg : g.flow.key ≠ k := hpre g (by simp)
    have ih' := ih (fun x hx => hpre x (by simp [hx]))
    simpa [desired_flow_lookup, hg] using ih'

/-- Appending onto the first key-matching flow leaves the other flows
untouched. -/
theorem append_to_existing_flow_spec (pre post : List DesiredFlow)
    (d : DesiredFlow) (k : Nat × Nat × Nat) (acts : List Nat) (sb : Nat)
    (hpre : ∀ g ∈ pre, g.flow.key ≠ k) (hd : d.flow.key = k) :
    append_to_existing_flow (pre ++ d :: post) k acts sb =
      pre ++ { d with
               flow := { d.flow with ofpacts := d.flow.ofpacts ++ acts },
               references := d.references ++ [sb] } :: post := by
  induction pre with
  | nil => simp [append_to_existing_flow, hd]
  | cons g rest ih =>
    have hg : g.flow.key ≠ k := hpre g (by simp)
    have ih' := ih (fun x hx => hpre x (by simp [hx]))
    simpa [append_to_existing_flow, hg] using ih'

/-- Claim C3 (amended): if a desired flow with the same key already lists
sb_uuid among its source references, the candidate is discarded and the
desired table is unchanged; otherwise the candidate is inserted and linked
to sb_uuid — and when two distinct sources add the same key, two desired
flows with equal keys coexist in the match index (the uuid-qualified
lookup skips the flow of the other source, so no sharing occurs through
this entry point). -/
theorem c3_check_and_add_flow (tbl : List DesiredFlow)
    (ti pr ck m : Nat) (acts : List Nat) (sb : Nat) :
    (desired_flow_lookup tbl (ti, pr, m) (some sb) ≠ none →
      ofctrl_check_and_add_flow tbl ti pr ck m acts sb = tbl) ∧
    (desired_flow_lookup tbl (ti, pr, m) (some sb) = none →
      ofctrl_check_and_add_flow tbl ti pr ck m acts sb =
        { flow := { table_id := ti, priority := pr, mtch := m,
                    ofpacts := acts, cookie := ck },
          references := [sb] } :: tbl) ∧
    (∀ s1 s2 acts1 acts2 ck1 ck2, s1 ≠ s2 →
      ((ofctrl_add_flow (ofctrl_add_flow [] ti pr ck1 m acts1 s1)
          ti pr ck2 m acts2 s2).countP
        (fun d => decide (d.flow.key = (ti, pr, m)))) = 2) := by
  refine ⟨?_, ?_, ?_⟩
  · intro h
    rcases hl : desired_flow_lookup tbl (ti, pr, m) (some sb) with _ | d
    · exact absurd hl h
    · simp [ofctrl_check_and_add_flow, OvnFlow.key, hl]
  · intro hl
    simp [ofctrl_check_and_add_flow, OvnFlow.key, hl]
  · intro s1 s2 acts1 acts2 ck1 ck2 h
    have h' : (s2 == s1) = false := by
      simp only [beq_eq_false_iff_ne, ne_eq]
      exact fun hx => h hx.symm
    simp [ofctrl_add_flow, ofctrl_check_and_add_flow, desired_flow_lookup,
      OvnFlow.key, List.find?, List.contains, h', Ne.symm h, List.countP_cons]

/-- Claim C3 counterexample: adding the same key from the two distinct
sources 10 and 11 through ofctrl_add_flow leaves two desired flows with
equal keys in the match index, not one shared entry. -/
theorem c3_duplicate_key_cx :
    (ofctrl_add_flow (ofctrl_add_flow [] 0 100 7 5 [1] 10)
        0 100 7 5 [3] 11).countP
      (fun d => decide (d.flow.key = (0, 100, 5))) = 2 ∧ (2 : Nat) ≠ 1 := by
  decide

/-- Witness for claim C3 at a concrete input: dfSample already references
source 10, so re-adding the same key from source 10 leaves the table
unchanged. -/
theorem c3_check_and_add_flow_witness :
    desired_flow_lookup [dfSample] (0, 100, 5) (some 10) ≠ none ∧
    ofctrl_check_and_add_flow [dfSample] 0 100 7 5 [1] 10 = [dfSample] :=
  ⟨by decide, (c3_check_and_add_flow [dfSample] 0 100 7 5 [1] 10).1 (by decide)⟩

/-- Claim C4 (amended): ofctrl_add_or_append_flow on a key that already
exists (regardless of source) concatenates the candidate actions onto the
actions of the existing flow in arrival order and adds a source link from
sb_uuid unconditionally — a duplicate link is created when one is already
present (see the counterexample); the distinct-source scenario holds: after
add with actions1 from s1 and add_or_append with actions2 from s2 on the
same key, a single desired flow remains with actions1 ++ actions2 and
source list [s1, s2]. -/
theorem c4_add_or_append_flow (ti pr ck m : Nat) :
    (∀ pre d post acts sb,
      (∀ g ∈ pre, g.flow.key ≠ (ti, pr, m)) → d.flow.key = (ti, pr, m) →
      ofctrl_add_or_append_flow (pre ++ d :: post) ti pr ck m acts sb =
        pre ++ { d with
                 flow := { d.flow with ofpacts := d.flow.ofpacts ++ acts },
                 references := d.references ++ [sb] } :: post) ∧
    (∀ s1 s2 a1 a2, s1 ≠ s2 →
      ofctrl_add_or_append_flow (ofctrl_add_flow [] ti pr ck m a1 s1)
          ti pr ck m a2 s2 =
        [{ flow := { table_id := ti, priority := pr, mtch := m,
                     ofpacts := a1 ++ a2, cookie := ck },
           references := [s1, s2] }]) := by
  constructor
  · intro pre d post acts sb hpre hd
    have hl : desired_flow_lookup (pre ++ d :: post) (ti, pr, m) none = some d :=
      desired_flow_lookup_append_cons pre post d _ hpre hd
    simp only [ofctrl_add_or_append_flow, OvnFlow.key, hl]
    exact append_to_existing_flow_spec pre post d _ acts sb hpre hd
  · intro s1 s2 a1 a2 h
    simp [ofctrl_add_flow, ofctrl_check_and_add_flow, ofctrl_add_or_append_flow,
      desired_flow_lookup, append_to_existing_flow, OvnFlow.key, List.find?]

/-- Claim C4 counterexample: two add_or_append calls from the same source
10 leave the references list [10, 10] — the source is linked twice, so the
link is not guarded by an already-present check. -/
theorem c4_duplicate_link_cx :
    (ofctrl_add_or_append_flow (ofctrl_add_or_append_flow [] 0 100 7 5 [1] 10)
        0 100 7 5 [2] 10) =
      [{ flow := { table_id := 0, priority := 100, mtch := 5,
                   ofpacts := [1, 2], cookie := 7 },
         references := [10, 10] }] ∧
    List.count 10 [10, 10] ≠ 1 := by
  decide

/-- Witness for claim C4 at a concrete input: the distinct-source scenario
with sources 10 and 11. -/
theorem c4_add_or_append_flow_witness :
    (10 : Nat) ≠ 11 ∧
    ofctrl_add_or_append_flow (ofctrl_add_flow [] 0 100 7 5 [1] 10)
        0 100 7 5 [2] 11 =
      [{ flow := { table_id := 0, priority := 100, mtch := 5,
                   ofpacts := [1, 2], cookie := 7 },
         references := [10, 11] }] :=
  ⟨by decide, (c4_add_or_append_flow 0 100 7 5).2 10 11 [1] [2] (by decide)⟩

/-! ## Claim C5 -/

/-- Claim C5 (amended): in S_UPDATE_FLOWS, on a barrier reply received
while the flow-update queue is non-empty: if and only if the xid of the
reply equals the xid of the head of the queue, cur_cfg is advanced to the
nb_cfg of the head (never going backwards) and the head is removed (a
reply matching a non-head record removes nothing and does not advance
cur_cfg); in the same non-empty-queue branch, every pending conntrack
flush in CT_ZONE_OF_SENT whose of_xid equals the xid of the reply moves to
CT_ZONE_DB_QUEUED.  When the queue is empty the message falls through to
the generic handler and the conntrack entries are not updated (see the
counterexample). -/
theorem c5_barrier_reply (e : Engine) (oh_xid : Nat) (fup : FlowUpdate)
    (rest : List FlowUpdate) (hq : e.flow_updates = fup :: rest) :
    (fup.xid = oh_xid →
      (recv_S_UPDATE_FLOWS e OfType.BARRIER_REPLY oh_xid).flow_updates = rest ∧
      (recv_S_UPDATE_FLOWS e OfType.BARRIER_REPLY oh_xid).cur_cfg =
        (if e.cur_cfg ≤ fup.nb_cfg then fup.nb_cfg else e.cur_cfg)) ∧
    (fup.xid ≠ oh_xid →
      (recv_S_UPDATE_FLOWS e OfType.BARRIER_REPLY oh_xid).flow_updates =
        e.flow_updates ∧
      (recv_S_UPDATE_FLOWS e OfType.BARRIER_REPLY oh_xid).cur_cfg =
        e.cur_cfg) ∧
    (recv_S_UPDATE_FLOWS e OfType.BARRIER_REPLY oh_xid).ct_zones =
      e.ct_zones.map (fun z =>
        if z.ctstate = CtState.CT_ZONE_OF_SENT ∧ z.of_xid = oh_xid then
          { z with ctstate := CtState.CT_ZONE_DB_QUEUED }
        else z) := by
  refine ⟨?_, ?_, ?_⟩
  · intro hx
    simp [recv_S_UPDATE_FLOWS, hq, hx]
  · intro hx
    simp [recv_S_UPDATE_FLOWS, hq, hx]
  · by_cases hx : fup.xid = oh_xid <;> simp [recv_S_UPDATE_FLOWS, hq, hx]

/-- Claim C5 counterexample: a barrier reply whose xid matches a pending
conntrack flush in CT_ZONE_OF_SENT does not move that flush to
CT_ZONE_DB_QUEUED when the flow-update queue is empty — the handler
forwards the reply to the generic receiver instead. -/
theorem c5_empty_queue_cx :
    (recv_S_UPDATE_FLOWS
        { engineReady with
          ct_zones :=
            [{ zone := 1, ctstate := CtState.CT_ZONE_OF_SENT, of_xid := 7 }] }
        OfType.BARRIER_REPLY 7).ct_zones =
      [{ zone := 1, ctstate := CtState.CT_ZONE_OF_SENT, of_xid := 7 }] ∧
    CtState.CT_ZONE_OF_SENT ≠ CtState.CT_ZONE_DB_QUEUED := by
  decide

/-- Witness for claim C5 at a concrete input: a head-matching barrier
reply pops the single queued record. -/
theorem c5_barrier_reply_witness :
    ({ engineReady with flow_updates := [{ xid := 7, nb_cfg := 6 }] }
        : Engine).flow_updates = [{ xid := 7, nb_cfg := 6 }] ∧
    (recv_S_UPDATE_FLOWS
        { engineReady with flow_updates := [{ xid := 7, nb_cfg := 6 }] }
        OfType.BARRIER_REPLY 7).flow_updates = [] :=
  ⟨rfl,
   ((c5_barrier_reply
       { engineReady with flow_updates := [{ xid := 7, nb_cfg := 6 }] }
       7 { xid := 7, nb_cfg := 6 } [] rfl).1 rfl).1⟩

/-! ## Claim C2 -/

/-- ofctrl_put never lowers cur_cfg when the nb_cfg it is handed is at
least the current cur_cfg. -/
theorem ofctrl_put_cur_cfg_mono (e : Engine) (tbl : List DesiredFlow)
    (nb_cfg : Int) (fc : Bool) (x : Nat) (h : e.cur_cfg ≤ nb_cfg) :
    e.cur_cfg ≤ (ofctrl_put e tbl nb_cfg fc x).cur_cfg := by
  simp only [ofctrl_put]
  split_ifs <;> simp <;> omega

/-- The barrier-reply handler never lowers cur_cfg. -/
theorem recv_S_UPDATE_FLOWS_cur_cfg_mono (e : Engine) (t : OfType) (x : Nat) :
    e.cur_cfg ≤ (recv_S_UPDATE_FLOWS e t x).cur_cfg := by
  simp only [recv_S_UPDATE_FLOWS]
  split
  · split_ifs
    all_goals simp
    all_goals omega
  · exact le_refl _

/-- One event step never lowers cur_cfg, provided a put event carries an
nb_cfg at least the current cur_cfg. -/
theorem ofctrl_step_cur_cfg_mono (e : Engine) (ev : OfEvent)
    (h : ∀ tbl nb fc x, ev = OfEvent.put tbl nb fc x → e.cur_cfg ≤ nb) :
    e.cur_cfg ≤ (ofctrl_step e ev).cur_cfg := by
  cases ev with
  | put tbl nb fc x =>
    exact ofctrl_put_cur_cfg_mono e tbl nb fc x (h tbl nb fc x rfl)
  | recvUpdateFlows t x =>
    simp only [ofctrl_step]
    split_ifs
    · exact recv_S_UPDATE_FLOWS_cur_cfg_mono e t x
    · exact le_refl _
  | clearFlows =>
    simp only [ofctrl_step]
    split_ifs
    · simp [run_S_CLEAR_FLOWS]
    · exact le_refl _

/-- Claim C2 (amended): across any sequence of ofctrl_put calls and
barrier-reply receptions the value of ofctrl_get_cur_cfg never decreases,
provided every put call receives an nb_cfg at least as large as the
cur_cfg current at that call.  Without that proviso the claim fails: a put
whose nb_cfg regressed below cur_cfg copies the regressed value into
cur_cfg on the caught-up paths (see the counterexample). -/
theorem c2_cur_cfg_monotone (e : Engine) (evs : List OfEvent)
    (hok : events_cfg_ok e evs = true) :
    ofctrl_get_cur_cfg e ≤ ofctrl_get_cur_cfg (ofctrl_run_events e evs) := by
  induction evs generalizing e with
  | nil => simp [ofctrl_run_events, ofctrl_get_cur_cfg]
  | cons ev rest ih =>
    simp only [events_cfg_ok, Bool.and_eq_true] at hok
    obtain ⟨h1, h2⟩ := hok
    have hstep : e.cur_cfg ≤ (ofctrl_step e ev).cur_cfg := by
      apply ofctrl_step_cur_cfg_mono
      intro tbl nb fc x hev
      subst hev
      simpa using h1
    simp only [ofctrl_run_events, ofctrl_get_cur_cfg] at *
    exact le_trans hstep (ih (ofctrl_step e ev) h2)

/-- Claim C2 counterexample: from a caught-up engine at revision 5, a
single ofctrl_put call with nb_cfg = 3 lowers ofctrl_get_cur_cfg from 5 to
3 — the value decreases when a put is given an nb_cfg smaller than that of
an earlier call. -/
theorem c2_cur_cfg_regression_cx :
    ofctrl_get_cur_cfg engineReady = 5 ∧
    ofctrl_get_cur_cfg
      (ofctrl_run_events engineReady [OfEvent.put [] 3 false 0]) = 3 := by
  decide

/-- Witness for claim C2 at a concrete input: a put at revision 6 followed
by the matching barrier reply. -/
theorem c2_cur_cfg_monotone_witness :
    events_cfg_ok engineReady
        [OfEvent.put [dfSample] 6 true 1,
         OfEvent.recvUpdateFlows OfType.BARRIER_REPLY 1] = true ∧
    ofctrl_get_cur_cfg engineReady ≤
      ofctrl_get_cur_cfg (ofctrl_run_events engineReady
        [OfEvent.put [dfSample] 6 true 1,
         OfEvent.recvUpdateFlows OfType.BARRIER_REPLY 1]) :=
  ⟨by decide, c2_cur_cfg_monotone _ _ (by decide)⟩

/-! ## Claim C7 -/

/-- find? only depends on the predicate pointwise on the list. -/
theorem list_find?_congr {α : Type} {p q : α → Bool} (l : List α)
    (h : ∀ a ∈ l, p a = q a) : l.find? p = l.find? q := by
  induction l with
  | nil => rfl
  | cons a t ih =>
    have ha := h a (by simp)
    by_cases hpa : p a = true
    · rw [List.find?_cons_of_pos _ hpa, List.find?_cons_of_pos _ (ha ▸ hpa)]
    · have hqa : ¬ q a = true := by rw [← ha]; exact hpa
      rw [List.find?_cons_of_neg _ hpa, List.find?_cons_of_neg _ hqa]
      exact ih (fun x hx => h x (by simp [hx]))

/-- find? over an initial range returns the least index satisfying the
predicate. -/
theorem find?_range_eq_some {p : Nat → Bool} {n i : Nat}
    (h : (List.range n).find? p = some i) :
    i < n ∧ p i = true ∧ ∀ j, j < i → p j = false := by
  induction n with
  | zero => simp [List.range_zero] at h
  | succ n ih =>
    rw [List.range_succ, List.find?_append] at h
    cases hf : (List.range n).find? p with
    | some i' =>
      rw [hf] at h
      obtain rfl : i' = i := by simpa using h
      obtain ⟨h1, h2, h3⟩ := ih hf
      exact ⟨by omega, h2, h3⟩
    | none =>
      rw [hf] at h
      have h' : [n].find? p = some i := by simpa using h
      have hmin : ∀ j, j < n → p j = false := by
        intro j hj
        have := List.find?_eq_none.mp hf j (List.mem_range.mpr hj)
        simpa using this
      by_cases hpn : p n = true
      · rw [List.find?_cons_of_pos _ hpn] at h'
        obtain rfl : n = i := by simpa using h'
        exact ⟨by omega, hpn, hmin⟩
      · rw [List.find?_cons_of_neg _ hpn] at h'
        simp at h'


/-- If the reply holds a mapping with the expected class/type/length, the
walk stops at the first such mapping: a usable index is recorded, an index
beyond the 64 slots makes the whole negotiation fail. -/
theorem process_tlv_go_match (mappings : List TlvMap) (mm : TlvMap) :
    ∀ used, mappings.find? tlv_map_matches = some mm →
      process_tlv_table_reply_go mappings used =
        (if TUN_METADATA_NUM_OPTS ≤ mm.index then TlvOutcome.failed
         else TlvOutcome.found mm.index) := by
  induction mappings with
  | nil => intro used h; simp at h
  | cons m rest ih =>
    intro used h
    by_cases hm : tlv_map_matches m = true
    · rw [List.find?_cons_of_pos _ hm] at h
      obtain rfl : m = mm := by simpa using h
      simp [process_tlv_table_reply_go, hm]
    · rw [List.find?_cons_of_neg _ hm] at h
      simp only [process_tlv_table_reply_go, hm, Bool.false_eq_true, if_false]
      exact ih _ h

/-- Without any matching mapping, the walk reduces to the free-slot scan:
the least index of the 64 slots occupied neither by the accumulator nor by
any mapping. -/
theorem process_tlv_go_nomatch (mappings : List TlvMap) :
    ∀ used, (∀ m ∈ mappings, tlv_map_matches m = false) →
      process_tlv_table_reply_go mappings used =
        (match (List.range TUN_METADATA_NUM_OPTS).find?
            (fun n => !(used.contains n) &&
              mappings.all (fun m => m.index != n)) with
         | none => TlvOutcome.failed
         | some idx => TlvOutcome.modSent idx) := by
  induction mappings with
  | nil =>
    intro used h
    have hp : (List.range TUN_METADATA_NUM_OPTS).find?
          (fun n => !(used.contains n)) =
        (List.range TUN_METADATA_NUM_OPTS).find?
          (fun n => !(used.contains n) &&
            ([] : List TlvMap).all (fun m => m.index != n)) :=
      list_find?_congr _ (by intro n hn; simp)
    rw [process_tlv_table_reply_go, hp]
  | cons m rest ih =>
    intro used h
    have hm : tlv_map_matches m = false := h m (by simp)
    rw [process_tlv_table_reply_go]
    rw [if_neg (by simp [hm])]
    rw [ih _ (fun x hx => h x (by simp [hx]))]
    have hp : (List.range TUN_METADATA_NUM_OPTS).find?
          (fun n => !((if m.index < TUN_METADATA_NUM_OPTS then
              m.index :: used else used).contains n) &&
            rest.all (fun m2 => m2.index != n)) =
        (List.range TUN_METADATA_NUM_OPTS).find?
          (fun n => !(used.contains n) &&
            (m :: rest).all (fun m2 => m2.index != n)) := by
      apply list_find?_congr
      intro n hn
      have hn64 : n < TUN_METADATA_NUM_OPTS := List.mem_range.mp hn
      by_cases hidx : m.index < TUN_METADATA_NUM_OPTS
      · by_cases hnm : n = m.index
        · subst hnm
          simp [hidx]
        · simp [hidx, hnm, Ne.symm hnm, Bool.and_left_comm, Bool.and_assoc,
            Bool.and_comm]
      · have hbne : (m.index != n) = true := by
          simp only [bne_iff_ne, ne_eq]
          omega
        simp [hidx, hbne]
    rw [hp]

/-- When no mapping matches, process_tlv_table_reply is governed by the
least free slot. -/
theorem process_tlv_nomatch (mappings : List TlvMap)
    (h : mappings.find? tlv_map_matches = none) :
    process_tlv_table_reply mappings =
      (match tlv_lowest_free mappings with
       | none => TlvOutcome.failed
       | some idx => TlvOutcome.modSent idx) := by
  have hall : ∀ m ∈ mappings, tlv_map_matches m = false := by
    intro m hm
    have := List.find?_eq_none.mp h m hm
    simpa using this
  rw [process_tlv_table_reply, process_tlv_go_nomatch mappings [] hall]
  have hp : (List.range TUN_METADATA_NUM_OPTS).find?
        (fun n => !(([] : List Nat).contains n) &&
          mappings.all (fun m => m.index != n)) =
      tlv_lowest_free mappings := by
    apply list_find?_congr
    intro n hn
    simp
  rw [hp]

/-- Claim C7 (amended): in S_TLV_TABLE_REQUESTED, on a TLV-table reply
carrying the xid of the outstanding request: if the reply enumerates a
mapping with the expected class/type/length (the first such mapping) and
its index is below the 64 tunnel-metadata slots, that index is recorded as
the tunnel-metadata field id (MFF_TUN_METADATA0 plus the index) and the
state becomes S_CLEAR_FLOWS — when such a mapping carries an index of 64
or more, tunnel metadata is instead disabled (see the counterexample);
otherwise the lowest-index free slot of the 64 slots is chosen, a
TLV-table-mod plus a barrier are emitted with both xids recorded, and the
state becomes S_TLV_TABLE_MOD_SENT; if no free slot exists, or an error
reply arrives, tunnel metadata is disabled (field id 0) and the state
becomes S_CLEAR_FLOWS. -/
theorem c7_tlv_table_reply (s : TlvNegotiation) (mappings : List TlvMap)
    (nx1 nx2 : Nat) :
    (∀ mm, mappings.find? tlv_map_matches = some mm →
      mm.index < TUN_METADATA_NUM_OPTS →
      recv_S_TLV_TABLE_REQUESTED s true OfType.NXT_TLV_TABLE_REPLY true
          mappings nx1 nx2 =
        { s with mff_ovn_geneve := MFF_TUN_METADATA0 + mm.index,
                 tlv_state := OfState.S_CLEAR_FLOWS }) ∧
    (∀ mm, mappings.find? tlv_map_matches = some mm →
      TUN_METADATA_NUM_OPTS ≤ mm.index →
      recv_S_TLV_TABLE_REQUESTED s true OfType.NXT_TLV_TABLE_REPLY true
          mappings nx1 nx2 =
        { s with mff_ovn_geneve := 0, tlv_state := OfState.S_CLEAR_FLOWS }) ∧
    (∀ idx, mappings.find? tlv_map_matches = none →
      tlv_lowest_free mappings = some idx →
      recv_S_TLV_TABLE_REQUESTED s true OfType.NXT_TLV_TABLE_REPLY true
          mappings nx1 nx2 =
        { s with mff_ovn_geneve := MFF_TUN_METADATA0 + idx,
                 xid := nx1, xid2 := nx2,
                 tlv_state := OfState.S_TLV_TABLE_MOD_SENT } ∧
      idx < TUN_METADATA_NUM_OPTS ∧
      (∀ m2 ∈ mappings, m2.index ≠ idx) ∧
      (∀ n, n < idx → ∃ m2 ∈ mappings, m2.index = n)) ∧
    (mappings.find? tlv_map_matches = none → tlv_lowest_free mappings = none →
      recv_S_TLV_TABLE_REQUESTED s true OfType.NXT_TLV_TABLE_REPLY true
          mappings nx1 nx2 =
        { s with mff_ovn_geneve := 0, tlv_state := OfState.S_CLEAR_FLOWS }) ∧
    (recv_S_TLV_TABLE_REQUESTED s true OfType.ERROR true mappings nx1 nx2 =
      { s with mff_ovn_geneve := 0, tlv_state := OfState.S_CLEAR_FLOWS }) := by
  refine ⟨?_, ?_, ?_, ?_, ?_⟩
  · intro mm hfind hlt
    have hp : process_tlv_table_reply mappings = TlvOutcome.found mm.index := by
      rw [process_tlv_table_reply, process_tlv_go_match mappings mm [] hfind,
        if_neg (by omega)]
    simp [recv_S_TLV_TABLE_REQUESTED, hp]
  · intro mm hfind hge
    have hp : process_tlv_table_reply mappings = TlvOutcome.failed := by
      rw [process_tlv_table_reply, process_tlv_go_match mappings mm [] hfind,
        if_pos hge]
    simp [recv_S_TLV_TABLE_REQUESTED, hp]
  · intro idx hfind hfree
    have hp : process_tlv_table_reply mappings = TlvOutcome.modSent idx := by
      rw [process_tlv_nomatch mappings hfind, hfree]
    obtain ⟨h1, h2, h3⟩ := find?_range_eq_some hfree
    refine ⟨by simp [recv_S_TLV_TABLE_REQUESTED, hp], h1, ?_, ?_⟩
    · intro m2 hm2
      have := List.all_eq_true.mp h2 m2 hm2
      simpa using this
    · intro n hn
      have hfl := h3 n (by omega)
      have hnall : ¬ ∀ m2 ∈ mappings, (m2.index != n) = true := by
        intro hc
        rw [List.all_eq_true.mpr hc] at hfl
        simp at hfl
      push_neg at hnall
      obtain ⟨m2, hm2, hv⟩ := hnall
      refine ⟨m2, hm2, ?_⟩
      simpa using hv
  · intro hfind hfree
    have hp : process_tlv_table_reply mappings = TlvOutcome.failed := by
      rw [process_tlv_nomatch mappings hfind, hfree]
    simp [recv_S_TLV_TABLE_REQUESTED, hp]
  · simp [recv_S_TLV_TABLE_REQUESTED]

/-- Claim C7 counterexample: a reply whose single mapping carries the
expected class/type/length but index 64 does not get its index recorded as
the field id — tunnel metadata is disabled (field id 0) instead. -/
theorem c7_bad_index_cx :
    tlv_map_matches { option_class := 0x0102, option_type := 0x80,
                      option_len := 4, index := 64 } = true ∧
    (recv_S_TLV_TABLE_REQUESTED tlvRequested true OfType.NXT_TLV_TABLE_REPLY
        true
        [{ option_class := 0x0102, option_type := 0x80,
           option_len := 4, index := 64 }] 8 9).mff_ovn_geneve = 0 ∧
    (0 : Nat) ≠ MFF_TUN_METADATA0 + 64 := by
  decide

/-- Witness for claim C7 at a concrete input: a reply enumerating the OVN
option at index 3 records field id MFF_TUN_METADATA0 + 3 and moves to
S_CLEAR_FLOWS. -/
theorem c7_tlv_table_reply_witness :
    List.find? tlv_map_matches
        [{ option_class := 0x0102, option_type := 0x80,
           option_len := 4, index := 3 }] =
      some { option_class := 0x0102, option_type := 0x80,
             option_len := 4, index := 3 } ∧
    recv_S_TLV_TABLE_REQUESTED tlvRequested true OfType.NXT_TLV_TABLE_REPLY
        true
        [{ option_class := 0x0102, option_type := 0x80,
           option_len := 4, index := 3 }] 8 9 =
      { tlvRequested with mff_ovn_geneve := MFF_TUN_METADATA0 + 3,
                          tlv_state := OfState.S_CLEAR_FLOWS } :=
  ⟨by decide,
   (c7_tlv_table_reply tlvRequested
       [{ option_class := 0x0102, option_type := 0x80,
          option_len := 4, index := 3 }] 8 9).1
     { option_class := 0x0102, option_type := 0x80,
       option_len := 4, index := 3 }
     (by decide) (by decide)⟩

/-! ## Claim C1 -/

/-- Linking never changes the flow value of the installed flow. -/
theorem link_installed_to_desired_flow (i : InstalledFlow) (j : Nat) :
    (link_installed_to_desired i j).flow = i.flow := by
  simp only [link_installed_to_desired]
  split_ifs <;> rfl

/-- Linking a desired flow into a freshly cloned installed flow makes it
the primary with a singleton back-reference list. -/
theorem link_installed_to_desired_fresh (f : OvnFlow) (j : Nat) :
    link_installed_to_desired
        { flow := f, desired_refs := [], desired_flow := none } j =
      { flow := f, desired_refs := [j], desired_flow := some j } := by
  simp [link_installed_to_desired]

/-- A successful indexed lookup returns the entry at the returned index,
and that entry carries the searched key. -/
theorem desired_flow_lookup_idx_some :
    ∀ (tbl : List DesiredFlow) (k : Nat × Nat × Nat) (j : Nat)
      (d : DesiredFlow),
      desired_flow_lookup_idx tbl k = some (j, d) →
      tbl[j]? = some d ∧ d.flow.key = k := by
  intro tbl
  induction tbl with
  | nil => intro k j d h; simp [desired_flow_lookup_idx] at h
  | cons g rest ih =>
    intro k j d h
    rw [desired_flow_lookup_idx] at h
    by_cases hg : g.flow.key = k
    · rw [if_pos hg] at h
      cases h
      exact ⟨by simp, hg⟩
    · rw [if_neg hg] at h
      cases hr : desired_flow_lookup_idx rest k with
      | none => rw [hr] at h; simp at h
      | some p =>
        obtain ⟨j', d'⟩ := p
        rw [hr] at h
        simp only [Option.some.injEq, Prod.mk.injEq] at h
        obtain ⟨rfl, rfl⟩ := h
        have := ih k j' d' hr
        simpa [List.getElem?_cons_succ] using this

/-- Goodness of an installed flow is preserved by linking any further
desired flow into it. -/
theorem put_flow_good_link (tbl : List DesiredFlow) (i : InstalledFlow)
    (j : Nat) (h : put_flow_good tbl i) :
    put_flow_good tbl (link_installed_to_desired i j) := by
  obtain ⟨j0, d0, hget, hdf, hrefs, hkey, hacts, hck⟩ := h
  by_cases hj : i.desired_flow = some j
  · rw [show link_installed_to_desired i j = i from by
      simp [link_installed_to_desired, hj]]
    exact ⟨j0, d0, hget, hdf, hrefs, hkey, hacts, hck⟩
  · rw [show link_installed_to_desired i j =
        { i with desired_refs := i.desired_refs ++ [j] } from by
      simp [link_installed_to_desired, hj, hrefs]]
    exact ⟨j0, d0, hget, hdf, by simp, hkey, hacts, hck⟩

/-- After the installed-flows walk of ofctrl_put, every surviving
installed flow is good: linked as primary to the desired flow with its
key, with matching actions and cookie. -/
theorem put_update_installed_good (tbl : List DesiredFlow) :
    ∀ inst, ∀ i ∈ (put_update_installed tbl inst).1, put_flow_good tbl i := by
  intro inst
  induction inst with
  | nil => intro i hi; simp [put_update_installed] at hi
  | cons a rest ih =>
    intro i hi
    rw [put_update_installed] at hi
    split at hi
    · exact ih i hi
    · rename_i j d hl
      obtain ⟨hget, hkey⟩ := desired_flow_lookup_idx_some tbl _ j d hl
      split_ifs at hi with hcond
      · rcases List.mem_cons.mp hi with rfl | hi
        · rw [show ({ unlink_all_refs_for_installed_flow a with
              flow := installed_flow_mod_local
                (unlink_all_refs_for_installed_flow a).flow d.flow }
              : InstalledFlow) =
            { flow := installed_flow_mod_local a.flow d.flow,
              desired_refs := [], desired_flow := none } from rfl,
            link_installed_to_desired_fresh]
          exact ⟨j, d, hget, rfl, by simp, by
              simpa [installed_flow_mod_local, OvnFlow.key] using hkey.symm,
            rfl, rfl⟩
        · exact ih i hi
      · rcases List.mem_cons.mp hi with rfl | hi
        · push_neg at hcond
          rw [show (unlink_all_refs_for_installed_flow a : InstalledFlow) =
            { flow := a.flow, desired_refs := [], desired_flow := none }
            from rfl, link_installed_to_desired_fresh]
          exact ⟨j, d, hget, rfl, by simp, hkey.symm, hcond.1, hcond.2⟩
        · exact ih i hi

/-- Relinking the first key-matching installed flow does not change the
multiset of keys. -/
theorem link_first_installed_keys (inst : List InstalledFlow)
    (k : Nat × Nat × Nat) (j : Nat) :
    (link_first_installed inst k j).map (fun i => i.flow.key) =
      inst.map (fun i => i.flow.key) := by
  induction inst with
  | nil => rfl
  | cons a rest ih =>
    rw [link_first_installed]
    split_ifs with h
    · simp [link_installed_to_desired_flow]
    · simp only [List.map_cons, ih]

/-- Relinking the first key-matching installed flow preserves goodness. -/
theorem link_first_installed_good (tbl : List DesiredFlow)
    (inst : List InstalledFlow) (k : Nat × Nat × Nat) (j : Nat)
    (h : ∀ i ∈ inst, put_flow_good tbl i) :
    ∀ i ∈ link_first_installed inst k j, put_flow_good tbl i := by
  induction inst with
  | nil => intro i hi; simp [link_first_installed] at hi
  | cons a rest ih =>
    intro i hi
    rw [link_first_installed] at hi
    split_ifs at hi with hk
    · rcases List.mem_cons.mp hi with rfl | hi
      · exact put_flow_good_link tbl a j (h a (by simp))
      · exact h i (by simp [hi])
    · rcases List.mem_cons.mp hi with rfl | hi
      · exact h i (by simp)
      · exact ih (fun x hx => h x (by simp [hx])) i hi

/-- installed_flow_lookup finds a flow exactly when one with the key is
present. -/
theorem installed_flow_lookup_found_iff (inst : List InstalledFlow)
    (k : Nat × Nat × Nat) :
    installed_flow_lookup_found inst k = true ↔
      ∃ i ∈ inst, i.flow.key = k := by
  simp [installed_flow_lookup_found, List.any_eq_true]

/-- Key membership transfers along an equal key map. -/
theorem exists_key_of_map_eq {l1 l2 : List InstalledFlow}
    (h : l1.map (fun i => i.flow.key) = l2.map (fun i => i.flow.key))
    (kk : Nat × Nat × Nat) :
    (∃ i ∈ l1, i.flow.key = kk) ↔ ∃ i ∈ l2, i.flow.key = kk := by
  constructor
  · rintro ⟨i, hi, rfl⟩
    have hm : i.flow.key ∈ l1.map (fun i => i.flow.key) :=
      List.mem_map_of_mem _ hi
    rw [h] at hm
    exact List.mem_map.mp hm
  · rintro ⟨i, hi, rfl⟩
    have hm : i.flow.key ∈ l2.map (fun i => i.flow.key) :=
      List.mem_map_of_mem _ hi
    rw [← h] at hm
    exact List.mem_map.mp hm

/-- The desired-flows walk of ofctrl_put: starting from a table suffix
aligned at index j and a good installed table, the walk keeps every
installed flow good and ends with the key set enlarged by exactly the keys
of the suffix. -/
theorem put_add_desired_spec (tbl : List DesiredFlow) :
    ∀ (rem : List DesiredFlow) (j : Nat) (inst : List InstalledFlow),
      rem = tbl.drop j → (∀ i ∈ inst, put_flow_good tbl i) →
      (∀ i ∈ (put_add_desired j rem inst).1, put_flow_good tbl i) ∧
      (∀ kk, (∃ i ∈ (put_add_desired j rem inst).1, i.flow.key = kk) ↔
        ((∃ i ∈ inst, i.flow.key = kk) ∨ ∃ d ∈ rem, d.flow.key = kk)) := by
  intro rem
  induction rem with
  | nil =>
    intro j inst hdrop hgood
    constructor
    · intro i hi
      exact hgood i hi
    · intro kk
      rw [put_add_desired]
      simp
  | cons d rest ih =>
    intro j inst hdrop hgood
    have hget : tbl[j]? = some d := by
      have hh : (tbl.drop j).head? = some d := by rw [← hdrop]; rfl
      rw [List.head?_drop] at hh
      exact hh
    have hrest : rest = tbl.drop (j + 1) := by
      have ht : tbl.drop (j + 1) = (tbl.drop j).tail := by rw [List.tail_drop]
      rw [ht, ← hdrop]
      rfl
    by_cases hfound : installed_flow_lookup_found inst d.flow.key = true
    · have hstep :
          (put_add_desired j (d :: rest) inst).1 =
            (put_add_desired (j + 1) rest
              (link_first_installed inst d.flow.key j)).1 := by
        rw [put_add_desired]
        simp [hfound]
      have hstep_good :
          ∀ i ∈ link_first_installed inst d.flow.key j, put_flow_good tbl i :=
        link_first_installed_good tbl inst d.flow.key j hgood
      obtain ⟨ihg, ihk⟩ :=
        ih (j + 1) (link_first_installed inst d.flow.key j) hrest hstep_good
      constructor
      · intro i hi
        rw [hstep] at hi
        exact ihg i hi
      · intro kk
        rw [hstep, ihk kk,
          exists_key_of_map_eq (link_first_installed_keys inst d.flow.key j) kk]
        have hdk : d.flow.key = kk → ∃ i ∈ inst, i.flow.key = kk := by
          intro hkk
          obtain ⟨i, hi, he⟩ :=
            (installed_flow_lookup_found_iff inst d.flow.key).mp hfound
          exact ⟨i, hi, by rw [he, hkk]⟩
        constructor
        · rintro (h | h)
          · exact Or.inl h
          · obtain ⟨x, hx, he⟩ := h
            exact Or.inr ⟨x, by simp [hx], he⟩
        · rintro (h | h)
          · exact Or.inl h
          · obtain ⟨x, hx, he⟩ := h
            rcases List.mem_cons.mp hx with rfl | hx
            · exact Or.inl (hdk he)
            · exact Or.inr ⟨x, hx, he⟩
    · have hstep :
          (put_add_desired j (d :: rest) inst).1 =
            (put_add_desired (j + 1) rest
              (inst ++ [(⟨d.flow, [j], some j⟩ : InstalledFlow)])).1 := by
        rw [put_add_desired]
        simp [hfound, installed_flow_dup, link_installed_to_desired_fresh]
      have hfresh_good :
          put_flow_good tbl (⟨d.flow, [j], some j⟩ : InstalledFlow) :=
        ⟨j, d, hget, rfl, by simp, rfl, rfl, rfl⟩
      have hstep_good :
          ∀ i ∈ inst ++ [(⟨d.flow, [j], some j⟩ : InstalledFlow)],
            put_flow_good tbl i := by
        intro i hi
        rcases List.mem_append.mp hi with hi | hi
        · exact hgood i hi
        · rw [List.mem_singleton.mp hi]
          exact hfresh_good
      obtain ⟨ihg, ihk⟩ := ih (j + 1) _ hrest hstep_good
      constructor
      · intro i hi
        rw [hstep] at hi
        exact ihg i hi
      · intro kk
        rw [hstep, ihk kk]
        constructor
        · rintro (h | h)
          · obtain ⟨x, hx, he⟩ := h
            rcases List.mem_append.mp hx with hx | hx
            · exact Or.inl ⟨x, hx, he⟩
            · rw [List.mem_singleton.mp hx] at he
              exact Or.inr ⟨d, by simp, he⟩
          · obtain ⟨x, hx, he⟩ := h
            exact Or.inr ⟨x, by simp [hx], he⟩
        · rintro (h | h)
          · obtain ⟨x, hx, he⟩ := h
            exact Or.inl ⟨x, by simp [hx], he⟩
          · obtain ⟨x, hx, he⟩ := h
            rcases List.mem_cons.mp hx with rfl | hx
            · exact Or.inl ⟨_,
                List.mem_append.mpr (Or.inr (List.mem_singleton.mpr rfl)), he⟩
            · exact Or.inr ⟨x, hx, he⟩

/-- Both flow walks of ofctrl_put together: every resulting installed flow
is good, and the key set of the result is exactly the key set of the
desired table. -/
theorem ofctrl_put_flows_spec (tbl : List DesiredFlow)
    (inst : List InstalledFlow) :
    (∀ i ∈ (ofctrl_put_flows tbl inst).1, put_flow_good tbl i) ∧
    (∀ kk, (∃ i ∈ (ofctrl_put_flows tbl inst).1, i.flow.key = kk) ↔
      ∃ d ∈ tbl, d.flow.key = kk) := by
  have h4 := put_update_installed_good tbl inst
  obtain ⟨h5g, h5k⟩ :=
    put_add_desired_spec tbl tbl 0 (put_update_installed tbl inst).1
      (by simp) h4
  constructor
  · intro i hi
    exact h5g i hi
  · intro kk
    have hre : (ofctrl_put_flows tbl inst).1 =
        (put_add_desired 0 tbl (put_update_installed tbl inst).1).1 := rfl
    rw [hre, h5k kk]
    constructor
    · rintro (h | h)
      · obtain ⟨i, hi, he⟩ := h
        obtain ⟨j, d, hget, _, _, hkey, _, _⟩ := h4 i hi
        exact ⟨d, List.getElem?_mem hget, by rw [← he, hkey]⟩
      · exact h
    · intro h
      exact Or.inr h

/-- With can_put true and flow_changed true, ofctrl_put runs its
reconciliation body, so the resulting installed table is the output of the
two flow walks. -/
theorem ofctrl_put_installed_eq (e : Engine) (tbl : List DesiredFlow)
    (nb_cfg : Int) (barrier_xid : Nat) (hcan : ofctrl_can_put e = true) :
    (ofctrl_put e tbl nb_cfg true barrier_xid).installed_flows =
      (ofctrl_put_flows tbl e.installed_flows).1 := by
  simp only [ofctrl_put, Bool.true_or, Bool.not_true, if_true]
  rw [if_neg (by simp)]
  have hcan2 : ofctrl_can_put { e with old_nb_cfg := nb_cfg } = true := hcan
  rw [if_neg (by simp [hcan2])]
  split_ifs <;> rfl

/-- Claim C1: for every engine state in which ofctrl_can_put returns true,
after a single ofctrl_put call over a desired flow table (pure here, hence
unmodified during the call, with flow_changed reporting the change that
motivated the call), the set of flow keys of installed_flows equals the
set of flow keys of the desired table, and every installed flow carries
the actions and cookie of the desired flow designated as its primary (its
desired_flow pointer). -/
theorem c1_put_reconciles (e : Engine) (tbl : List DesiredFlow)
    (nb_cfg : Int) (barrier_xid : Nat) (hcan : ofctrl_can_put e = true) :
    (∀ kk, (∃ i ∈ (ofctrl_put e tbl nb_cfg true barrier_xid).installed_flows,
        i.flow.key = kk) ↔ ∃ d ∈ tbl, d.flow.key = kk) ∧
    (∀ i ∈ (ofctrl_put e tbl nb_cfg true barrier_xid).installed_flows,
      ∃ j d, tbl[j]? = some d ∧ i.desired_flow = some j ∧
        i.flow.ofpacts = d.flow.ofpacts ∧ i.flow.cookie = d.flow.cookie) := by
  rw [ofctrl_put_installed_eq e tbl nb_cfg barrier_xid hcan]
  obtain ⟨hg, hk⟩ := ofctrl_put_flows_spec tbl e.installed_flows
  refine ⟨hk, ?_⟩
  intro i hi
  obtain ⟨j, d, hget, hdf, _, _, hacts, hck⟩ := hg i hi
  exact ⟨j, d, hget, hdf, hacts, hck⟩

/-- Witness for claim C1 at a concrete input: a ready engine, two desired
flows, revision 6. -/
theorem c1_put_reconciles_witness :
    ofctrl_can_put engineReady = true ∧
    (∀ kk, (∃ i ∈ (ofctrl_put engineReady [dfSample, dfSample2] 6 true
        9).installed_flows, i.flow.key = kk) ↔
      ∃ d ∈ [dfSample, dfSample2], d.flow.key = kk) :=
  ⟨by decide,
   (c1_put_reconciles engineReady [dfSample, dfSample2] 6 9 (by decide)).1⟩

/-! ## Claim C10 -/

/-- The backward scan always leaves the fresh record at the most recent
position. -/
theorem track_rev_head (rq : List FlowUpdate) (nb : Int) (x : Nat) :
    (ofctrl_put_track_rev rq nb x).head? = some { xid := x, nb_cfg := nb } := by
  induction rq with
  | nil => rfl
  | cons f rest ih =>
    rw [ofctrl_put_track_rev]
    split_ifs with h1 h2
    · exact ih
    · rw [h2]
      rfl
    · rfl

/-- The backward scan preserves the non-increasing order of the reversed
queue. -/
theorem track_rev_chain (rq : List FlowUpdate) (nb : Int) (x : Nat)
    (h : List.Chain' (flip FupLe) rq) :
    List.Chain' (flip FupLe) (ofctrl_put_track_rev rq nb x) := by
  induction rq with
  | nil => simp [ofctrl_put_track_rev]
  | cons f rest ih =>
    rw [ofctrl_put_track_rev]
    split_ifs with h1 h2
    · exact ih h.tail
    · rw [List.chain'_cons'] at h ⊢
      obtain ⟨hh, ht⟩ := h
      refine ⟨?_, ht⟩
      intro b hb
      have hfb := hh b hb
      simp only [flip, FupLe] at hfb ⊢
      omega
    · rw [List.chain'_cons]
      refine ⟨?_, h⟩
      simp only [flip, FupLe]
      omega

/-- The flow-update tracking of an emitting ofctrl_put keeps the queue
sorted by nb_cfg. -/
theorem ofctrl_put_track_chain (q : List FlowUpdate) (nb : Int) (x : Nat)
    (h : List.Chain' FupLe q) :
    List.Chain' FupLe (ofctrl_put_track q nb x) := by
  rw [ofctrl_put_track, List.chain'_reverse]
  apply track_rev_chain
  rw [List.chain'_reverse]
  exact h

/-- Overwriting the nb_cfg of the most recent record keeps the queue
sorted, provided the new revision dominates every queued one. -/
theorem set_last_chain (q : List FlowUpdate) (nb : Int)
    (h : List.Chain' FupLe q) (hb : ∀ f ∈ q, f.nb_cfg ≤ nb) :
    List.Chain' FupLe (set_last_nb_cfg q nb) := by
  induction q with
  | nil => simp [set_last_nb_cfg]
  | cons f rest ih =>
    rcases rest with _ | ⟨g, t⟩
    · simp [set_last_nb_cfg]
    · rw [set_last_nb_cfg]
      rw [List.chain'_cons'] at h
      obtain ⟨hh, ht⟩ := h
      rw [List.chain'_cons']
      refine ⟨?_, ih ht (fun u hu => hb u (by simp [hu]))⟩
      intro b hbb
      rcases t with _ | ⟨u, v⟩
      · rw [set_last_nb_cfg] at hbb
        simp only [List.head?_cons, Option.mem_def, Option.some.injEq] at hbb
        rw [← hbb]
        exact hb f (by simp)
      · rw [set_last_nb_cfg] at hbb
        simp only [List.head?_cons, Option.mem_def, Option.some.injEq] at hbb
        rw [← hbb]
        exact hh g (by simp)

/-- ofctrl_put keeps the flow-update queue sorted; the no-message path
needs the new nb_cfg to dominate the queued records, every other path is
unconditional. -/
theorem ofctrl_put_queue_chain (e : Engine) (tbl : List DesiredFlow)
    (nb : Int) (fc : Bool) (x : Nat)
    (h : List.Chain' FupLe e.flow_updates)
    (hb : ofctrl_put_msg_count e tbl = 0 →
      ∀ f ∈ e.flow_updates, f.nb_cfg ≤ nb) :
    List.Chain' FupLe (ofctrl_put e tbl nb fc x).flow_updates := by
  simp only [ofctrl_put]
  split_ifs <;>
    first
      | exact h
      | exact ofctrl_put_track_chain e.flow_updates nb x h
      | (apply set_last_chain e.flow_updates nb h
         intro f hf
         refine hb ?_ f hf)
  all_goals simp only [ofctrl_put_msg_count] at *
  all_goals omega

/-- The receive handler only ever pops the head of the queue, which keeps
it sorted. -/
theorem recv_S_UPDATE_FLOWS_queue_chain (e : Engine) (t : OfType) (x : Nat)
    (h : List.Chain' FupLe e.flow_updates) :
    List.Chain' FupLe (recv_S_UPDATE_FLOWS e t x).flow_updates := by
  simp only [recv_S_UPDATE_FLOWS]
  split
  · rename_i fup rest heq
    split_ifs
    all_goals
      first
        | exact h
        | (rw [heq] at h; exact h.tail)
  · exact h

/-- One event step keeps the queue sorted under the amended side
condition. -/
theorem ofctrl_step_queue_chain (e : Engine) (ev : OfEvent)
    (h : List.Chain' FupLe e.flow_updates)
    (hok : ∀ tbl nb fc x, ev = OfEvent.put tbl nb fc x →
      ofctrl_put_msg_count e tbl = 0 →
      ∀ f ∈ e.flow_updates, f.nb_cfg ≤ nb) :
    List.Chain' FupLe (ofctrl_step e ev).flow_updates := by
  cases ev with
  | put tbl nb fc x =>
    exact ofctrl_put_queue_chain e tbl nb fc x h (hok tbl nb fc x rfl)
  | recvUpdateFlows t x =>
    simp only [ofctrl_step]
    split_ifs
    · exact recv_S_UPDATE_FLOWS_queue_chain e t x h
    · exact h
  | clearFlows =>
    simp only [ofctrl_step]
    split_ifs
    · simp [run_S_CLEAR_FLOWS]
    · exact h

/-- Claim C10 (amended): at every point outside a call to ofctrl_put or
the receive dispatcher, the in-flight flow-update queue is sorted by
nb_cfg in non-decreasing order from head (oldest) to tail (newest),
provided every put call that emits no messages receives an nb_cfg at least
as large as every queued record (automatic when nb_cfg never regresses):
the backward scan of an emitting put drops records with greater nb_cfg and
overwrites an equal-nb_cfg tail before appending, unconditionally
preserving order; barrier-reply handling only removes the head; entering
S_CLEAR_FLOWS empties the queue; but a no-message put overwrites the
nb_cfg of the tail record, which breaks the order when nb_cfg regressed
(see the counterexample). -/
theorem c10_queue_sorted (e : Engine) (evs : List OfEvent)
    (h : List.Chain' FupLe e.flow_updates)
    (hok : events_queue_ok e evs = true) :
    List.Chain' FupLe (ofctrl_run_events e evs).flow_updates := by
  induction evs generalizing e with
  | nil => simpa [ofctrl_run_events] using h
  | cons ev rest ih =>
    simp only [events_queue_ok, Bool.and_eq_true] at hok
    obtain ⟨h1, h2⟩ := hok
    refine ih (ofctrl_step e ev) ?_ h2
    apply ofctrl_step_queue_chain e ev h
    intro tbl nb fc x hev hmsg
    subst hev
    have h1' : (ofctrl_put_msg_count e tbl != 0 ||
        e.flow_updates.all fun f => decide (f.nb_cfg ≤ nb)) = true := h1
    rw [hmsg] at h1'
    simp only [bne_self_eq_false, Bool.false_or, List.all_eq_true,
      decide_eq_true_eq] at h1'
    exact h1'

/-- Claim C10 counterexample: from a sorted queue [(1, 4), (2, 5)], an
ofctrl_put call with nb_cfg = 3 that emits nothing overwrites the tail
record, leaving the unsorted queue [(1, 4), (2, 3)]. -/
theorem c10_unsorted_cx :
    List.Chain' FupLe
      ({ engineReady with
         flow_updates := [{ xid := 1, nb_cfg := 4 },
                          { xid := 2, nb_cfg := 5 }] } : Engine).flow_updates ∧
    ¬ List.Chain' FupLe
      (ofctrl_run_events
        { engineReady with
          flow_updates := [{ xid := 1, nb_cfg := 4 },
                           { xid := 2, nb_cfg := 5 }] }
        [OfEvent.put [] 3 true 9]).flow_updates := by
  constructor
  · show List.Chain' FupLe
      [({ xid := 1, nb_cfg := 4 } : FlowUpdate), { xid := 2, nb_cfg := 5 }]
    norm_num [List.chain'_cons, FupLe]
  · have hcomp : (ofctrl_run_events
        { engineReady with
          flow_updates := [{ xid := 1, nb_cfg := 4 },
                           { xid := 2, nb_cfg := 5 }] }
        [OfEvent.put [] 3 true 9]).flow_updates =
      [{ xid := 1, nb_cfg := 4 }, { xid := 2, nb_cfg := 3 }] := by decide
    rw [hcomp]
    norm_num [List.chain'_cons, FupLe]

/-- Witness for claim C10 at a concrete input: an emitting put, its
barrier reply, and a second emitting put keep the queue sorted. -/
theorem c10_queue_sorted_witness :
    List.Chain' FupLe (engineReady.flow_updates) ∧
    events_queue_ok engineReady
      [OfEvent.put [dfSample] 6 true 1,
       OfEvent.recvUpdateFlows OfType.BARRIER_REPLY 1,
       OfEvent.put [dfSample2] 7 true 2] = true ∧
    List.Chain' FupLe
      (ofctrl_run_events engineReady
        [OfEvent.put [dfSample] 6 true 1,
         OfEvent.recvUpdateFlows OfType.BARRIER_REPLY 1,
         OfEvent.put [dfSample2] 7 true 2]).flow_updates :=
  ⟨List.chain'_nil, by decide,
   c10_queue_sorted engineReady
     [OfEvent.put [dfSample] 6 true 1,
      OfEvent.recvUpdateFlows OfType.BARRIER_REPLY 1,
      OfEvent.put [dfSample2] 7 true 2] List.chain'_nil (by decide)⟩

end Ofctrl
